import Mathlib

/-!
Shallow embedding of the check-dispatch core of the spicedb repository:

* `internal/graph/membershipset.go` — the caveat expression algebra
  (`wrapCaveat`, `caveatOr`, `caveatAnd`, `invert`, `caveatSub`) and the
  membership-set accumulator (`MembershipSet` with `addMember`,
  `AddDirectMember`, `AddMemberViaRelationship`, `UnionWith`,
  `IntersectWith`, `Subtract`, `AsCheckResultsMap`).
* `internal/dispatch/singleflight/singleflight.go` — the single-flight
  dispatcher decorator (`Dispatcher.DispatchCheck`, `Dispatcher.DispatchExpand`
  and the three streaming pass-through operations).

Go maps over string keys are embedded as association lists with unique keys
(`NodupKeys`); a Go `nil` pointer to a caveat expression is `Option.none`;
a Go `panic` is the `Except.error` branch of the embedding.
-/

namespace SpiceDB

/-! ### Association-list model of Go string-keyed maps -/

/-- Lookup in a Go map: `v, ok := m[k]` returns `some v` for the first
(binding of) key `k`, `none` when the key is missing. -/
def mapGet {α : Type} (l : List (String × α)) (k : String) : Option α :=
  match l with
  | [] => none
  | (k1, v1) :: rest => if k1 = k then some v1 else mapGet rest k

/-- Assignment in a Go map: `m[k] = v` replaces the binding of an existing
key in place, and appends a fresh binding otherwise. -/
def mapSet {α : Type} (l : List (String × α)) (k : String) (v : α) : List (String × α) :=
  match l with
  | [] => [(k, v)]
  | (k1, v1) :: rest => if k1 = k then (k, v) :: rest else (k1, v1) :: mapSet rest k v

/-- Deletion from a Go map: `delete(m, k)` removes every binding of `k`
(at most one when keys are unique). -/
def mapDelete {α : Type} (l : List (String × α)) (k : String) : List (String × α) :=
  l.filter (fun e => e.1 ≠ k)

/-- A well-formed image of a Go map: each key is bound at most once. -/
def NodupKeys {α : Type} (l : List (String × α)) : Prop :=
  (l.map Prod.fst).Nodup

instance {α : Type} (l : List (String × α)) : Decidable (NodupKeys l) := by
  unfold NodupKeys; infer_instance

/-! ### Caveat expression data model (pkg/proto externals used by src) -/

/-- A `core.ContextualizedCaveat`: a named caveat reference.  The bound
context bag is a protobuf struct the membership set never inspects, so it
is omitted from the embedding. -/
structure ContextualizedCaveat where
  caveatName : String
deriving DecidableEq

/-- A `core.RelationTuple` as seen by `AddMemberViaRelationship`: only its
optional caveat is read; resource and subject are never inspected. -/
structure RelationTuple where
  caveat : Option ContextualizedCaveat

/-- The operator of a `v1.CaveatOperation` node. -/
inductive CaveatOp where
  | and
  | or
  | not
deriving DecidableEq

/-- A `v1.CaveatExpression`: either a leaf contextualized caveat or an
operation node over child expression pointers.  Children are `Option`s
because the Go children slice holds pointers that may be `nil`. -/
inductive CaveatExpr where
  | caveat (c : ContextualizedCaveat)
  | operation (op : CaveatOp) (children : List (Option CaveatExpr))

/-- Membership tag of a `v1.DispatchCheckResponse_ResourceCheckResult`. -/
inductive Membership where
  | member
  | caveatedMember
deriving DecidableEq

/-- A `v1.DispatchCheckResponse_ResourceCheckResult`: a membership tag and
an optional caveat expression. -/
structure ResourceCheckResult where
  membership : Membership
  expression : Option CaveatExpr

/-- `CheckResultsMap`: a Go map from resource ID to check result. -/
abbrev CheckResultsMap := List (String × ResourceCheckResult)

/-! ### Caveat expression algebra (membershipset.go lines 166-245) -/

/-- Go `wrapCaveat`: a `nil` contextualized caveat wraps to `nil`, anything
else to a leaf expression. -/
def wrapCaveat : Option ContextualizedCaveat → Option CaveatExpr
  | none => none
  | some c => some (CaveatExpr.caveat c)

/-- Go `caveatOr`: if either operand is `nil` return the other, else an
`OR` node over both. -/
def caveatOr (first second : Option CaveatExpr) : Option CaveatExpr :=
  match first, second with
  | none, s => s
  | some f, none => some f
  | some f, some s => some (CaveatExpr.operation CaveatOp.or [some f, some s])

/-- Go `caveatAnd`: if either operand is `nil` return the other, else an
`AND` node over both. -/
def caveatAnd (first second : Option CaveatExpr) : Option CaveatExpr :=
  match first, second with
  | none, s => s
  | some f, none => some f
  | some f, some s => some (CaveatExpr.operation CaveatOp.and [some f, some s])

/-- Go `invert`: wraps its (possibly `nil`) argument in a `NOT` node. -/
def invert (ce : Option CaveatExpr) : CaveatExpr :=
  CaveatExpr.operation CaveatOp.not [ce]

/-- Go `caveatSub`: computes the inversion first; a `nil` minuend returns
that inversion immediately; only then does a `nil` subtrahend panic
(`Except.error`); otherwise an `AND` of the minuend and the inversion. -/
def caveatSub (caveat subtraction : Option CaveatExpr) : Except String CaveatExpr :=
  let inversion := invert subtraction
  match caveat with
  | none => Except.ok inversion
  | some c =>
    match subtraction with
    | none => Except.error "subtraction caveat expression is nil"
    | some _ => Except.ok (CaveatExpr.operation CaveatOp.and [some c, some inversion])

/-! ### Membership set (membershipset.go lines 13-164) -/

/-- Go `MembershipSet`: members-by-ID map plus the determined-member cache. -/
structure MembershipSet where
  membersByID : List (String × Option CaveatExpr)
  hasDeterminedMember : Bool

/-- Go `NewMembershipSet`. -/
def NewMembershipSet : MembershipSet :=
  { hasDeterminedMember := false, membersByID := [] }

/-- Go `(*MembershipSet).addMember`, the internal merge rule. -/
def addMember (ms : MembershipSet) (resourceID : String) (caveatExpr : Option CaveatExpr) :
    MembershipSet :=
  match mapGet ms.membersByID resourceID with
  | none =>
    { hasDeterminedMember := ms.hasDeterminedMember || caveatExpr.isNone
      membersByID := mapSet ms.membersByID resourceID caveatExpr }
  | some existing =>
    match existing with
    | none => ms
    | some _ =>
      match caveatExpr with
      | none =>
        { hasDeterminedMember := true
          membersByID := mapSet ms.membersByID resourceID none }
      | some _ =>
        { ms with membersByID := mapSet ms.membersByID resourceID (caveatOr existing caveatExpr) }

/-- Go `(*MembershipSet).AddDirectMember`. -/
def AddDirectMember (ms : MembershipSet) (resourceID : String)
    (caveat : Option ContextualizedCaveat) : MembershipSet :=
  addMember ms resourceID (wrapCaveat caveat)

/-- Go `(*MembershipSet).AddMemberViaRelationship`. -/
def AddMemberViaRelationship (ms : MembershipSet) (resourceID : String)
    (resourceCaveatExpression : Option CaveatExpr) (parentRelationship : RelationTuple) :
    MembershipSet :=
  addMember ms resourceID (caveatAnd (wrapCaveat parentRelationship.caveat) resourceCaveatExpression)

/-- Go `(*MembershipSet).UnionWith`: merge every entry of the results map. -/
def UnionWith (ms : MembershipSet) (resultsMap : CheckResultsMap) : MembershipSet :=
  resultsMap.foldl (fun acc e => addMember acc e.1 e.2.expression) ms

/-- One iteration of the second loop of Go `(*MembershipSet).IntersectWith`. -/
def intersectStep (acc : MembershipSet) (e : String × ResourceCheckResult) : MembershipSet :=
  match mapGet acc.membersByID e.1 with
  | none => acc
  | some existing =>
    if existing.isNone && e.2.expression.isNone then
      { acc with hasDeterminedMember := true }
    else
      { acc with membersByID := mapSet acc.membersByID e.1 (caveatAnd existing e.2.expression) }

/-- Go `(*MembershipSet).IntersectWith`: first delete every member absent
from the results map, then reset the determined cache and combine the
surviving entries. -/
def IntersectWith (ms : MembershipSet) (resultsMap : CheckResultsMap) : MembershipSet :=
  let pruned := ms.membersByID.filter (fun e => (mapGet resultsMap e.1).isSome)
  resultsMap.foldl intersectStep { membersByID := pruned, hasDeterminedMember := false }

/-- One iteration of the loop of Go `(*MembershipSet).Subtract`, processing
the member binding `e` as read at the start of the pass. -/
def subtractStep (resultsMap : CheckResultsMap) (acc : MembershipSet)
    (e : String × Option CaveatExpr) : Except String MembershipSet :=
  match mapGet resultsMap e.1 with
  | some details =>
    match details.expression with
    | none => Except.ok { acc with membersByID := mapDelete acc.membersByID e.1 }
    | some _ => do
      let sub ← caveatSub e.2 details.expression
      Except.ok { acc with membersByID := mapSet acc.membersByID e.1 (some sub) }
  | none =>
    if e.2.isNone then
      Except.ok { acc with hasDeterminedMember := true }
    else
      Except.ok acc

/-- Go `(*MembershipSet).Subtract`: reset the determined cache, then walk the
member bindings; a panic inside `caveatSub` surfaces as `Except.error`. -/
def Subtract (ms : MembershipSet) (resultsMap : CheckResultsMap) :
    Except String MembershipSet :=
  ms.membersByID.foldlM (subtractStep resultsMap)
    { ms with hasDeterminedMember := false }

/-- Go `(*MembershipSet).IsEmpty`. -/
def IsEmpty (ms : MembershipSet) : Bool :=
  ms.membersByID.length = 0

/-- Go `(*MembershipSet).HasDeterminedMember`. -/
def HasDeterminedMember (ms : MembershipSet) : Bool :=
  ms.hasDeterminedMember

/-- Go `(*MembershipSet).AsCheckResultsMap`: emit `MEMBER` for a `nil`
stored expression and `CAVEATED_MEMBER` otherwise, carrying the expression. -/
def AsCheckResultsMap (ms : MembershipSet) : CheckResultsMap :=
  ms.membersByID.map (fun e =>
    (e.1,
      { membership := if e.2.isSome then Membership.caveatedMember else Membership.member
        expression := e.2 }))

/-- Go `membershipSetFromMap`. -/
def membershipSetFromMap (mp : List (String × Option CaveatExpr)) : MembershipSet :=
  mp.foldl (fun acc e => addMember acc e.1 e.2) NewMembershipSet

/-! ### Single-flight dispatcher (internal/dispatch/singleflight/singleflight.go)

The dispatcher is a pure decorator.  The only impure collaborator, the
in-flight group `singleflight.Group.Do` from the external
`resenje.org/singleflight` module, is embedded as an oracle argument: a
function from the hex-encoded key and the delegate thunk to the
`(value-or-error, isShared)` pair that `Do` returned for this call. -/

/-- A gRPC status code as used by the dispatcher (`codes.Internal`). -/
inductive StatusCode where
  | internal
deriving DecidableEq

/-- A Go `error` value returned along a dispatch path. -/
inductive GoError where
  | statusError (code : StatusCode) (msg : String)
  | other (msg : String)
deriving DecidableEq

/-- A `v1.ResponseMeta`; only the dispatch count is read or written by the
single-flight dispatcher. -/
structure ResponseMeta where
  dispatchCount : Nat
deriving DecidableEq

/-- A `v1.DispatchCheckResponse`: optional metadata pointer plus a results
payload the dispatcher never inspects. -/
structure DispatchCheckResponse where
  metadata : Option ResponseMeta
  resultsByResourceID : CheckResultsMap

/-- A `v1.DispatchExpandResponse`: optional metadata pointer plus an opaque
tree payload the dispatcher never inspects. -/
structure DispatchExpandResponse where
  metadata : Option ResponseMeta
  treeNode : Nat
deriving DecidableEq

/-- A `v1.DispatchCheckRequest`; opaque to the dispatcher, which only
forwards it and hands it to the key handler. -/
structure DispatchCheckRequest where
  payload : Nat
deriving DecidableEq

/-- A `v1.DispatchExpandRequest`; opaque to the dispatcher. -/
structure DispatchExpandRequest where
  payload : Nat
deriving DecidableEq

/-- A `v1.DispatchReachableResourcesRequest`; opaque to the dispatcher. -/
structure DispatchReachableResourcesRequest where
  payload : Nat
deriving DecidableEq

/-- A `v1.DispatchLookupResourcesRequest`; opaque to the dispatcher. -/
structure DispatchLookupResourcesRequest where
  payload : Nat
deriving DecidableEq

/-- A `v1.DispatchLookupSubjectsRequest`; opaque to the dispatcher. -/
structure DispatchLookupSubjectsRequest where
  payload : Nat
deriving DecidableEq

/-- A reachable-resources result stream handle; opaque to the dispatcher. -/
structure ReachableResourcesStream where
  handle : Nat
deriving DecidableEq

/-- A lookup-resources result stream handle; opaque to the dispatcher. -/
structure LookupResourcesStream where
  handle : Nat
deriving DecidableEq

/-- A lookup-subjects result stream handle; opaque to the dispatcher. -/
structure LookupSubjectsStream where
  handle : Nat
deriving DecidableEq

/-- The `dispatch.Dispatcher` interface as implemented by the delegate: two
unary operations returning a response or an error, and three streaming
operations returning an optional error. -/
structure DelegateDispatcher where
  dispatchCheck : DispatchCheckRequest → Except GoError DispatchCheckResponse
  dispatchExpand : DispatchExpandRequest → Except GoError DispatchExpandResponse
  dispatchReachableResources :
    DispatchReachableResourcesRequest → ReachableResourcesStream → Option GoError
  dispatchLookupResources :
    DispatchLookupResourcesRequest → LookupResourcesStream → Option GoError
  dispatchLookupSubjects :
    DispatchLookupSubjectsRequest → LookupSubjectsStream → Option GoError

/-- The `keys.Handler` interface: fingerprint derivation for check and
expand requests, each returning a byte string or an error. -/
structure KeyHandler where
  checkDispatchKey : DispatchCheckRequest → Except GoError (List Nat)
  expandDispatchKey : DispatchExpandRequest → Except GoError (List Nat)

/-- Lower-case hex digit for a nibble, as produced by Go `hex.EncodeToString`. -/
def hexDigit (n : Nat) : Char :=
  if n < 10 then Char.ofNat (48 + n) else Char.ofNat (87 + n)

/-- Go `hex.EncodeToString` over the key bytes. -/
def hexEncodeToString (bytes : List Nat) : String :=
  String.mk (bytes.foldr (fun b acc => hexDigit (b / 16 % 16) :: hexDigit (b % 16) :: acc) [])

/-- The oracle embedding of `singleflight.Group.Do` for a response type `ρ`:
given the string key and the delegate thunk, it yields the value-or-error
and the shared flag that `Do` returned for this call. -/
def GroupDo (ρ : Type) : Type :=
  String → (Unit → Except GoError ρ) → Except GoError ρ × Bool

/-- The single-flight `Dispatcher` struct: the delegate and the key handler.
The two in-flight groups live behind the `GroupDo` oracles passed to each
call. -/
structure Dispatcher where
  delegate : DelegateDispatcher
  keyHandler : KeyHandler

/-- Go `(*Dispatcher).DispatchCheck`: on key-handler failure synthesise a
response with dispatch count 1 and an internal-status error without touching
the group; otherwise run the group and, on error, return the synthetic
response with dispatch count 1 alongside the error. -/
def Dispatcher.DispatchCheck (d : Dispatcher) (req : DispatchCheckRequest)
    (checkGroupDo : GroupDo DispatchCheckResponse) :
    Option DispatchCheckResponse × Option GoError :=
  match d.keyHandler.checkDispatchKey req with
  | Except.error _ =>
    (some { metadata := some { dispatchCount := 1 }, resultsByResourceID := [] },
      some (GoError.statusError StatusCode.internal "unexpected DispatchCheck error"))
  | Except.ok key =>
    let keyString := hexEncodeToString key
    let res := checkGroupDo keyString (fun _ => d.delegate.dispatchCheck req)
    match res.1 with
    | Except.error err =>
      (some { metadata := some { dispatchCount := 1 }, resultsByResourceID := [] }, some err)
    | Except.ok v => (some v, none)

/-- Go `(*Dispatcher).DispatchExpand`: same shape as `DispatchCheck` over the
expand group. -/
def Dispatcher.DispatchExpand (d : Dispatcher) (req : DispatchExpandRequest)
    (expandGroupDo : GroupDo DispatchExpandResponse) :
    Option DispatchExpandResponse × Option GoError :=
  match d.keyHandler.expandDispatchKey req with
  | Except.error _ =>
    (some { metadata := some { dispatchCount := 1 }, treeNode := 0 },
      some (GoError.statusError StatusCode.internal "unexpected DispatchExpand error"))
  | Except.ok key =>
    let keyString := hexEncodeToString key
    let res := expandGroupDo keyString (fun _ => d.delegate.dispatchExpand req)
    match res.1 with
    | Except.error err =>
      (some { metadata := some { dispatchCount := 1 }, treeNode := 0 }, some err)
    | Except.ok v => (some v, none)

/-- Go `(*Dispatcher).DispatchReachableResources`: direct delegation. -/
def Dispatcher.DispatchReachableResources (d : Dispatcher)
    (req : DispatchReachableResourcesRequest) (stream : ReachableResourcesStream) :
    Option GoError :=
  d.delegate.dispatchReachableResources req stream

/-- Go `(*Dispatcher).DispatchLookupResources`: direct delegation. -/
def Dispatcher.DispatchLookupResources (d : Dispatcher)
    (req : DispatchLookupResourcesRequest) (stream : LookupResourcesStream) :
    Option GoError :=
  d.delegate.dispatchLookupResources req stream

/-- Go `(*Dispatcher).DispatchLookupSubjects`: direct delegation. -/
def Dispatcher.DispatchLookupSubjects (d : Dispatcher)
    (req : DispatchLookupSubjectsRequest) (stream : LookupSubjectsStream) :
    Option GoError :=
  d.delegate.dispatchLookupSubjects req stream

/-! ### Proof-level helper definitions -/

/-- The value `caveatSub` returns when the subtrahend is present; used to
express the subtraction pass as a total fold. -/
def caveatSubT (caveat : Option CaveatExpr) (r : CaveatExpr) : CaveatExpr :=
  match caveat with
  | none => invert (some r)
  | some c => CaveatExpr.operation CaveatOp.and [some c, some (invert (some r))]

/-- Total restatement of `subtractStep`: identical except that the
`caveatSub` call, whose subtrahend is present on this branch, is replaced
by its returned value. -/
def subtractStepT (resultsMap : CheckResultsMap) (acc : MembershipSet)
    (e : String × Option CaveatExpr) : MembershipSet :=
  match mapGet resultsMap e.1 with
  | some details =>
    match details.expression with
    | none => { acc with membersByID := mapDelete acc.membersByID e.1 }
    | some r => { acc with membersByID := mapSet acc.membersByID e.1 (some (caveatSubT e.2 r)) }
  | none =>
    if e.2.isNone then
      { acc with hasDeterminedMember := true }
    else
      acc

/-- Whether a map lookup found a binding whose stored expression is `nil`,
i.e. a determined member. -/
def isDeterminedBinding (o : Option (Option CaveatExpr)) : Bool :=
  match o with
  | some none => true
  | _ => false

/-- The membership-set representation invariant: unique member keys, and
the determined-member cache agrees with the members map. -/
def Inv (ms : MembershipSet) : Prop :=
  NodupKeys ms.membersByID ∧
  (ms.hasDeterminedMember = true ↔ ∃ id, mapGet ms.membersByID id = some none)

/-- Membership sets reachable from the empty set by the public operations.
The maps handed to the set operations come from Go maps, so their keys are
unique. -/
inductive Reachable : MembershipSet → Prop where
  | empty : Reachable NewMembershipSet
  | addDirect (ms : MembershipSet) (resourceID : String) (caveat : Option ContextualizedCaveat) :
      Reachable ms → Reachable (AddDirectMember ms resourceID caveat)
  | addViaRelationship (ms : MembershipSet) (resourceID : String)
      (rce : Option CaveatExpr) (parent : RelationTuple) :
      Reachable ms → Reachable (AddMemberViaRelationship ms resourceID rce parent)
  | unionWith (ms : MembershipSet) (rm : CheckResultsMap) :
      Reachable ms → Reachable (UnionWith ms rm)
  | intersectWith (ms : MembershipSet) (rm : CheckResultsMap) :
      Reachable ms → NodupKeys rm → Reachable (IntersectWith ms rm)
  | subtract (ms ms2 : MembershipSet) (rm : CheckResultsMap) :
      Reachable ms → Subtract ms rm = Except.ok ms2 → Reachable ms2

/-! ### Concrete inputs used to instantiate the theorems -/

/-- A leaf caveat expression over the caveat named c1. -/
def exampleCaveat1 : CaveatExpr :=
  CaveatExpr.caveat { caveatName := "c1" }

/-- A leaf caveat expression over the caveat named c2. -/
def exampleCaveat2 : CaveatExpr :=
  CaveatExpr.caveat { caveatName := "c2" }

/-- A membership set holding one determined member. -/
def exampleMS1 : MembershipSet :=
  { membersByID := [("r1", none)], hasDeterminedMember := true }

/-- A check-results map holding one determined result. -/
def exampleRM1 : CheckResultsMap :=
  [("r1", { membership := Membership.member, expression := none })]

/-- A check-results map holding one caveated result. -/
def exampleRM2 : CheckResultsMap :=
  [("r1", { membership := Membership.caveatedMember, expression := some exampleCaveat2 })]

/-- A delegate whose unary operations both succeed with dispatch count 2. -/
def exampleDelegate : DelegateDispatcher :=
  { dispatchCheck := fun _ =>
      Except.ok { metadata := some { dispatchCount := 2 }, resultsByResourceID := [] }
    dispatchExpand := fun _ =>
      Except.ok { metadata := some { dispatchCount := 2 }, treeNode := 0 }
    dispatchReachableResources := fun _ _ => none
    dispatchLookupResources := fun _ _ => none
    dispatchLookupSubjects := fun _ _ => none }

/-- A key handler that fails for every request. -/
def exampleFailingKeyHandler : KeyHandler :=
  { checkDispatchKey := fun _ => Except.error (GoError.other "boom")
    expandDispatchKey := fun _ => Except.error (GoError.other "boom") }

/-- A single-flight dispatcher over the example delegate whose key handler
always fails. -/
def exampleDispatcher : Dispatcher :=
  { delegate := exampleDelegate, keyHandler := exampleFailingKeyHandler }

/-- A group oracle that runs the thunk unshared, as `Do` does for a lone
caller. -/
def exampleGroupDoCheck : GroupDo DispatchCheckResponse :=
  fun _ thunk => (thunk (), false)

/-- A group oracle for the expand group that runs the thunk unshared. -/
def exampleGroupDoExpand : GroupDo DispatchExpandResponse :=
  fun _ thunk => (thunk (), false)

/-! ### Association-list lemmas -/

theorem mapGet_mapSet_self {α : Type} (l : List (String × α)) (k : String) (v : α) :
    mapGet (mapSet l k v) k = some v := by
  induction l with
  | nil => simp [mapGet, mapSet]
  | cons e rest ih =>
    by_cases h : e.1 = k
    · simp [mapGet, mapSet, h]
    · simp [mapGet, mapSet, h, ih]

theorem mapGet_mapSet_ne {α : Type} (l : List (String × α)) (k k2 : String) (v : α)
    (h : k2 ≠ k) : mapGet (mapSet l k v) k2 = mapGet l k2 := by
  induction l with
  | nil => simp [mapGet, mapSet, Ne.symm h]
  | cons e rest ih =>
    by_cases he : e.1 = k
    · simp [mapGet, mapSet, he, Ne.symm h]
    · by_cases he2 : e.1 = k2
      · simp [mapGet, mapSet, he, he2, h]
      · simp [mapGet, mapSet, he, he2, ih]

theorem mapGet_mapDelete_self {α : Type} (l : List (String × α)) (k : String) :
    mapGet (mapDelete l k) k = none := by
  induction l with
  | nil => simp [mapGet, mapDelete]
  | cons e rest ih =>
    by_cases h : e.1 = k
    · simpa [mapDelete, List.filter, h] using ih
    · simpa [mapGet, mapDelete, List.filter, h] using ih

theorem mapGet_mapDelete_ne {α : Type} (l : List (String × α)) (k k2 : String)
    (h : k2 ≠ k) : mapGet (mapDelete l k) k2 = mapGet l k2 := by
  induction l with
  | nil => simp [mapGet, mapDelete]
  | cons e rest ih =>
    by_cases he : e.1 = k
    · simpa [mapGet, mapDelete, List.filter, he, Ne.symm h] using ih
    · by_cases he2 : e.1 = k2
      · simp [mapGet, mapDelete, List.filter, he, he2, h]
      · simpa [mapGet, mapDelete, List.filter, he, he2] using ih

theorem mapGet_filter_key {α : Type} (l : List (String × α)) (p : String → Bool) (k : String) :
    mapGet (l.filter fun e => p e.1) k = if p k then mapGet l k else none := by
  induction l with
  | nil => simp [mapGet]
  | cons e rest ih =>
    by_cases hp : p e.1
    · by_cases he : e.1 = k
      · subst he; simp [mapGet, List.filter, hp]
      · simp [mapGet, List.filter, hp, he, ih]
    · by_cases he : e.1 = k
      · subst he; simp [mapGet, List.filter, hp, ih]
      · simp [mapGet, List.filter, hp, he, ih]

theorem mapGet_eq_none_iff {α : Type} (l : List (String × α)) (k : String) :
    mapGet l k = none ↔ k ∉ l.map Prod.fst := by
  induction l with
  | nil => simp [mapGet]
  | cons e rest ih =>
    by_cases he : e.1 = k
    · simp [mapGet, he]
    · have h1 : mapGet (e :: rest) k = mapGet rest k := by simp [mapGet, he]
      rw [h1, ih]
      simp only [List.map_cons, List.mem_cons]
      constructor
      · intro h hc
        rcases hc with hc | hc
        · exact he hc.symm
        · exact h hc
      · intro h hc
        exact h (Or.inr hc)

theorem mem_of_mapGet_eq_some {α : Type} (l : List (String × α)) (k : String) (v : α)
    (h : mapGet l k = some v) : (k, v) ∈ l := by
  induction l with
  | nil => simp [mapGet] at h
  | cons e rest ih =>
    obtain ⟨k1, v1⟩ := e
    by_cases he : k1 = k
    · subst he
      simp [mapGet] at h
      subst h
      exact List.mem_cons_self _ _
    · simp [mapGet, he] at h
      exact List.mem_cons_of_mem _ (ih h)

theorem nodupKeys_cons_iff {α : Type} (e : String × α) (rest : List (String × α)) :
    NodupKeys (e :: rest) ↔ e.1 ∉ rest.map Prod.fst ∧ NodupKeys rest := by
  unfold NodupKeys
  simp [List.nodup_cons]

theorem mapGet_eq_some_of_mem {α : Type} (l : List (String × α)) (k : String) (v : α)
    (hnd : NodupKeys l) (h : (k, v) ∈ l) : mapGet l k = some v := by
  induction l with
  | nil => simp at h
  | cons e rest ih =>
    obtain ⟨hfst, hnd2⟩ := (nodupKeys_cons_iff e rest).mp hnd
    rcases List.mem_cons.mp h with h1 | h1
    · rw [← h1]
      simp [mapGet]
    · have hk : k ∈ rest.map Prod.fst := List.mem_map_of_mem Prod.fst h1
      have he : e.1 ≠ k := fun h2 => hfst (h2 ▸ hk)
      simp [mapGet, he]
      exact ih hnd2 h1

theorem mapGet_eq_some_iff_mem {α : Type} (l : List (String × α)) (k : String) (v : α)
    (hnd : NodupKeys l) : mapGet l k = some v ↔ (k, v) ∈ l :=
  ⟨mem_of_mapGet_eq_some l k v, mapGet_eq_some_of_mem l k v hnd⟩

theorem mapSet_fresh {α : Type} (l : List (String × α)) (k : String) (v : α)
    (h : mapGet l k = none) : mapSet l k v = l ++ [(k, v)] := by
  induction l with
  | nil => simp [mapSet]
  | cons e rest ih =>
    by_cases he : e.1 = k
    · simp [mapGet, he] at h
    · simp [mapGet, he] at h
      simp [mapSet, he, ih h]

theorem keys_mapSet_subset {α : Type} (l : List (String × α)) (k : String) (v : α) :
    ∀ x, x ∈ (mapSet l k v).map Prod.fst → x ∈ l.map Prod.fst ∨ x = k := by
  induction l with
  | nil => intro x hx; simp [mapSet] at hx; right; exact hx
  | cons e rest ih =>
    intro x hx
    by_cases he : e.1 = k
    · simp [mapSet, he] at hx
      rcases hx with hx | hx
      · right; exact hx
      · left; simp [hx]
    · simp [mapSet, he] at hx
      rcases hx with hx | hx
      · left; simp [hx]
      · rcases ih x (by simpa using hx) with h2 | h2
        · left; simp; right; simpa using h2
        · right; exact h2

theorem nodupKeys_mapSet {α : Type} (l : List (String × α)) (k : String) (v : α)
    (h : NodupKeys l) : NodupKeys (mapSet l k v) := by
  induction l with
  | nil => simp [mapSet, NodupKeys]
  | cons e rest ih =>
    obtain ⟨hfst, hrest⟩ := (nodupKeys_cons_iff e rest).mp h
    by_cases he : e.1 = k
    · subst he
      unfold NodupKeys at h ⊢
      simpa [mapSet] using h
    · have h3 := ih hrest
      have h4 : e.1 ∉ (mapSet rest k v).map Prod.fst := by
        intro hx
        rcases keys_mapSet_subset rest k v e.1 hx with h5 | h5
        · exact hfst h5
        · exact he h5
      have hstep : mapSet (e :: rest) k v = e :: mapSet rest k v := by
        simp [mapSet, he]
      rw [hstep]
      exact (nodupKeys_cons_iff e (mapSet rest k v)).mpr ⟨h4, h3⟩

theorem nodupKeys_mapDelete {α : Type} (l : List (String × α)) (k : String)
    (h : NodupKeys l) : NodupKeys (mapDelete l k) := by
  unfold NodupKeys at h ⊢
  unfold mapDelete
  have hsub : (l.filter fun e => e.1 ≠ k).map Prod.fst |>.Sublist (l.map Prod.fst) :=
    List.Sublist.map Prod.fst (List.filter_sublist l)
  exact h.sublist hsub

theorem nodupKeys_filter {α : Type} (l : List (String × α)) (p : String × α → Bool)
    (h : NodupKeys l) : NodupKeys (l.filter p) := by
  unfold NodupKeys at h ⊢
  exact h.sublist (List.Sublist.map Prod.fst (List.filter_sublist l))

theorem listAny_congr {α : Type} (l : List α) (p q : α → Bool)
    (h : ∀ x ∈ l, p x = q x) : l.any p = l.any q := by
  induction l with
  | nil => rfl
  | cons e rest ih =>
    simp only [List.any_cons]
    rw [h e (List.mem_cons_self e rest), ih fun x hx => h x (List.mem_cons_of_mem e hx)]

/-! ### Caveat-algebra lemmas -/

theorem caveatAnd_eq_none_iff (a b : Option CaveatExpr) :
    caveatAnd a b = none ↔ a = none ∧ b = none := by
  cases a <;> cases b <;> simp [caveatAnd]

theorem caveatOr_some_some (a b : CaveatExpr) :
    caveatOr (some a) (some b) =
      some (CaveatExpr.operation CaveatOp.or [some a, some b]) := rfl

theorem caveatSub_some_eq (e : Option CaveatExpr) (r : CaveatExpr) :
    caveatSub e (some r) = Except.ok (caveatSubT e r) := by
  cases e <;> rfl

/-! ### addMember characterization -/

theorem addMember_get_self (ms : MembershipSet) (id : String) (ce : Option CaveatExpr) :
    mapGet (addMember ms id ce).membersByID id =
      match mapGet ms.membersByID id, ce with
      | none, _ => some ce
      | some none, _ => some none
      | some (some _), none => some none
      | some (some e), some c => some (caveatOr (some e) (some c)) := by
  rcases hget : mapGet ms.membersByID id with _ | (_ | e)
  · simp [addMember, hget, mapGet_mapSet_self]
  · simp [addMember, hget]
  · cases ce with
    | none => simp [addMember, hget, mapGet_mapSet_self]
    | some c => simp [addMember, hget, mapGet_mapSet_self]

theorem addMember_get_ne (ms : MembershipSet) (id : String) (ce : Option CaveatExpr)
    (id2 : String) (h : id2 ≠ id) :
    mapGet (addMember ms id ce).membersByID id2 = mapGet ms.membersByID id2 := by
  rcases hget : mapGet ms.membersByID id with _ | (_ | e)
  · simp [addMember, hget, mapGet_mapSet_ne _ _ _ _ h]
  · simp [addMember, hget]
  · cases ce with
    | none => simp [addMember, hget, mapGet_mapSet_ne _ _ _ _ h]
    | some c => simp [addMember, hget, mapGet_mapSet_ne _ _ _ _ h]

theorem addMember_hasDet (ms : MembershipSet) (id : String) (ce : Option CaveatExpr) :
    (addMember ms id ce).hasDeterminedMember =
      match mapGet ms.membersByID id, ce with
      | none, _ => ms.hasDeterminedMember || ce.isNone
      | some none, _ => ms.hasDeterminedMember
      | some (some _), none => true
      | some (some _), some _ => ms.hasDeterminedMember := by
  rcases hget : mapGet ms.membersByID id with _ | (_ | e)
  · simp [addMember, hget]
  · simp [addMember, hget]
  · cases ce with
    | none => simp [addMember, hget]
    | some c => simp [addMember, hget]

theorem nodupKeys_addMember (ms : MembershipSet) (id : String) (ce : Option CaveatExpr)
    (h : NodupKeys ms.membersByID) : NodupKeys (addMember ms id ce).membersByID := by
  rcases hget : mapGet ms.membersByID id with _ | (_ | e)
  · simpa [addMember, hget] using nodupKeys_mapSet _ id ce h
  · simpa [addMember, hget] using h
  · cases ce with
    | none => simpa [addMember, hget] using nodupKeys_mapSet _ id none h
    | some c =>
      simpa [addMember, hget] using
        nodupKeys_mapSet _ id (caveatOr (some e) (some c)) h

theorem inv_addMember (ms : MembershipSet) (id : String) (ce : Option CaveatExpr)
    (h : Inv ms) : Inv (addMember ms id ce) := by
  obtain ⟨hnd, hdet⟩ := h
  refine ⟨nodupKeys_addMember ms id ce hnd, ?_⟩
  rcases hget : mapGet ms.membersByID id with _ | (_ | e)
  · have hmem : (addMember ms id ce).membersByID = mapSet ms.membersByID id ce := by
      simp [addMember, hget]
    have hh : (addMember ms id ce).hasDeterminedMember =
        (ms.hasDeterminedMember || ce.isNone) := by
      simp [addMember, hget]
    rw [hmem, hh]
    constructor
    · intro h1
      rw [Bool.or_eq_true] at h1
      rcases h1 with h2 | h2
      · obtain ⟨id0, h0⟩ := hdet.mp h2
        have hne : id0 ≠ id := by
          intro hh2
          rw [hh2, hget] at h0
          exact Option.noConfusion h0
        exact ⟨id0, by rw [mapGet_mapSet_ne _ _ _ _ hne]; exact h0⟩
      · have : ce = none := Option.isNone_iff_eq_none.mp h2
        subst this
        exact ⟨id, mapGet_mapSet_self _ _ _⟩
    · rintro ⟨id2, h2⟩
      by_cases hne : id2 = id
      · subst hne
        rw [mapGet_mapSet_self] at h2
        have : ce = none := Option.some.inj h2
        subst this
        simp
      · rw [mapGet_mapSet_ne _ _ _ _ hne] at h2
        rw [hdet.mpr ⟨id2, h2⟩]
        simp
  · have heq : addMember ms id ce = ms := by
      simp [addMember, hget]
    rw [heq]
    exact hdet
  · cases ce with
    | none =>
      have hmem : (addMember ms id none).membersByID = mapSet ms.membersByID id none := by
        simp [addMember, hget]
      have hh : (addMember ms id none).hasDeterminedMember = true := by
        simp [addMember, hget]
      rw [hmem, hh]
      simp only [true_iff]
      exact ⟨id, mapGet_mapSet_self _ _ _⟩
    | some c =>
      have hmem : (addMember ms id (some c)).membersByID =
          mapSet ms.membersByID id (caveatOr (some e) (some c)) := by
        simp [addMember, hget]
      have hh : (addMember ms id (some c)).hasDeterminedMember =
          ms.hasDeterminedMember := by
        simp [addMember, hget]
      rw [hmem, hh]
      constructor
      · intro h1
        obtain ⟨id0, h0⟩ := hdet.mp h1
        have hne : id0 ≠ id := by
          intro hh2
          rw [hh2, hget] at h0
          exact Option.noConfusion (Option.some.inj h0)
        exact ⟨id0, by rw [mapGet_mapSet_ne _ _ _ _ hne]; exact h0⟩
      · rintro ⟨id2, h2⟩
        by_cases hne : id2 = id
        · subst hne
          rw [mapGet_mapSet_self] at h2
          have h3 := Option.some.inj h2
          simp [caveatOr] at h3
        · rw [mapGet_mapSet_ne _ _ _ _ hne] at h2
          exact hdet.mpr ⟨id2, h2⟩

theorem inv_foldl_addMember (rm : CheckResultsMap) :
    ∀ ms : MembershipSet, Inv ms →
      Inv (rm.foldl (fun acc e => addMember acc e.1 e.2.expression) ms) := by
  induction rm with
  | nil => intro ms h; exact h
  | cons e rest ih =>
    intro ms h
    exact ih _ (inv_addMember _ _ _ h)

theorem inv_unionWith (ms : MembershipSet) (rm : CheckResultsMap) (h : Inv ms) :
    Inv (UnionWith ms rm) :=
  inv_foldl_addMember rm ms h

/-! ### IntersectWith characterization -/

theorem isDeterminedBinding_eq_true (o : Option (Option CaveatExpr)) :
    isDeterminedBinding o = true ↔ o = some none := by
  rcases o with _ | (_ | e) <;> simp [isDeterminedBinding]

theorem intersectStep_get_ne (acc : MembershipSet) (e : String × ResourceCheckResult)
    (id2 : String) (h : id2 ≠ e.1) :
    mapGet (intersectStep acc e).membersByID id2 = mapGet acc.membersByID id2 := by
  rcases hget : mapGet acc.membersByID e.1 with _ | ex
  · simp [intersectStep, hget]
  · by_cases hc : ex.isNone && e.2.expression.isNone
    · simp [intersectStep, hget, hc]
    · simp [intersectStep, hget, hc, mapGet_mapSet_ne _ _ _ _ h]

theorem intersectStep_get_self (acc : MembershipSet) (e : String × ResourceCheckResult) :
    mapGet (intersectStep acc e).membersByID e.1 =
      (mapGet acc.membersByID e.1).map (fun ex => caveatAnd ex e.2.expression) := by
  rcases hget : mapGet acc.membersByID e.1 with _ | ex
  · simp [intersectStep, hget]
  · by_cases hc : ex.isNone && e.2.expression.isNone
    · rw [Bool.and_eq_true] at hc
      have h1 : ex = none := Option.isNone_iff_eq_none.mp hc.1
      have h2 : e.2.expression = none := Option.isNone_iff_eq_none.mp hc.2
      subst h1
      simp [intersectStep, hget, h2, caveatAnd]
    · simp [intersectStep, hget, hc, mapGet_mapSet_self]

theorem intersectStep_hasDet (acc : MembershipSet) (e : String × ResourceCheckResult) :
    (intersectStep acc e).hasDeterminedMember =
      (acc.hasDeterminedMember ||
        (isDeterminedBinding (mapGet acc.membersByID e.1) && e.2.expression.isNone)) := by
  rcases hget : mapGet acc.membersByID e.1 with _ | ex
  · simp [intersectStep, hget, isDeterminedBinding]
  · by_cases hc : ex.isNone && e.2.expression.isNone
    · rw [Bool.and_eq_true] at hc
      have h1 : ex = none := Option.isNone_iff_eq_none.mp hc.1
      subst h1
      simp [intersectStep, hget, isDeterminedBinding, hc.2]
    · rcases ex with _ | ex2
      · rw [Bool.and_eq_true] at hc
        simp at hc
        have h2 : e.2.expression.isNone = false :=
          Bool.eq_false_iff.mpr (by simpa using hc)
        simp [intersectStep, hget, isDeterminedBinding, h2]
      · simp [intersectStep, hget, isDeterminedBinding]

theorem nodupKeys_intersectStep (acc : MembershipSet) (e : String × ResourceCheckResult)
    (h : NodupKeys acc.membersByID) : NodupKeys (intersectStep acc e).membersByID := by
  rcases hget : mapGet acc.membersByID e.1 with _ | ex
  · simpa [intersectStep, hget] using h
  · by_cases hc : ex.isNone && e.2.expression.isNone
    · simpa [intersectStep, hget, hc] using h
    · simpa [intersectStep, hget, hc] using nodupKeys_mapSet _ _ _ h

theorem intersectFold_spec (R : CheckResultsMap) :
    ∀ acc : MembershipSet, NodupKeys R →
      (∀ id, mapGet (R.foldl intersectStep acc).membersByID id =
          match mapGet R id with
          | none => mapGet acc.membersByID id
          | some d => (mapGet acc.membersByID id).map (fun ex => caveatAnd ex d.expression)) ∧
      (R.foldl intersectStep acc).hasDeterminedMember =
        (acc.hasDeterminedMember ||
          R.any (fun e =>
            isDeterminedBinding (mapGet acc.membersByID e.1) && e.2.expression.isNone)) := by
  induction R with
  | nil =>
    intro acc _
    exact ⟨fun id => rfl, by simp⟩
  | cons e R2 ih =>
    intro acc hnd
    obtain ⟨hfst, hnd2⟩ := (nodupKeys_cons_iff e R2).mp hnd
    obtain ⟨ihget, ihdet⟩ := ih (intersectStep acc e) hnd2
    constructor
    · intro id
      by_cases hid : id = e.1
      · have hR2 : mapGet R2 id = none := by
          rw [hid]
          exact (mapGet_eq_none_iff R2 e.1).mpr hfst
        have hhead : mapGet (e :: R2) id = some e.2 := by
          simp [mapGet, hid.symm]
        rw [List.foldl_cons, hhead]
        have h1 := ihget id
        rw [hR2] at h1
        rw [h1, hid, intersectStep_get_self]
      · have hhead : mapGet (e :: R2) id = mapGet R2 id := by
          simp [mapGet, Ne.symm hid]
        rw [List.foldl_cons, hhead, ihget id]
        rcases hR2 : mapGet R2 id with _ | d
        · exact intersectStep_get_ne acc e id hid
        · simp only [Option.map]
          rw [intersectStep_get_ne acc e id hid]
    · rw [List.foldl_cons, ihdet, intersectStep_hasDet, Bool.or_assoc]
      have hcong : R2.any (fun x =>
            isDeterminedBinding (mapGet (intersectStep acc e).membersByID x.1) &&
              x.2.expression.isNone) =
          R2.any (fun x =>
            isDeterminedBinding (mapGet acc.membersByID x.1) && x.2.expression.isNone) := by
        refine listAny_congr R2 _ _ ?_
        intro x hx
        have hxk : x.1 ∈ R2.map Prod.fst := List.mem_map_of_mem Prod.fst hx
        have hne : x.1 ≠ e.1 := fun hh => hfst (hh ▸ hxk)
        rw [intersectStep_get_ne acc e x.1 hne]
      rw [hcong, List.any_cons]

theorem IntersectWith_get (ms : MembershipSet) (R : CheckResultsMap)
    (hR : NodupKeys R) (id : String) :
    mapGet (IntersectWith ms R).membersByID id =
      match mapGet ms.membersByID id, mapGet R id with
      | some ex, some d => some (caveatAnd ex d.expression)
      | _, _ => none := by
  unfold IntersectWith
  obtain ⟨hget, _⟩ := intersectFold_spec R
    { membersByID := ms.membersByID.filter fun e => (mapGet R e.1).isSome
      hasDeterminedMember := false } hR
  rw [hget id]
  dsimp only
  rw [mapGet_filter_key ms.membersByID (fun k => (mapGet R k).isSome) id]
  rcases hRid : mapGet R id with _ | d
  · rcases hms : mapGet ms.membersByID id with _ | ex <;> simp
  · rcases hms : mapGet ms.membersByID id with _ | ex <;> simp

theorem IntersectWith_hasDet (ms : MembershipSet) (R : CheckResultsMap)
    (hR : NodupKeys R) :
    (IntersectWith ms R).hasDeterminedMember =
      R.any (fun e =>
        isDeterminedBinding (mapGet ms.membersByID e.1) && e.2.expression.isNone) := by
  unfold IntersectWith
  obtain ⟨_, hdet⟩ := intersectFold_spec R
    { membersByID := ms.membersByID.filter fun e => (mapGet R e.1).isSome
      hasDeterminedMember := false } hR
  rw [hdet]
  simp only [Bool.false_or]
  refine listAny_congr R _ _ ?_
  intro x hx
  have hxk : x.1 ∈ R.map Prod.fst := List.mem_map_of_mem Prod.fst hx
  have hsome : (mapGet R x.1).isSome := by
    rcases hRx : mapGet R x.1 with _ | d
    · exact absurd hxk ((mapGet_eq_none_iff R x.1).mp hRx)
    · simp
  have hpr : mapGet (ms.membersByID.filter fun e => (mapGet R e.1).isSome) x.1 =
      mapGet ms.membersByID x.1 := by
    rw [mapGet_filter_key ms.membersByID (fun k => (mapGet R k).isSome) x.1, if_pos hsome]
  rw [hpr]

theorem nodupKeys_foldl_intersectStep (R : CheckResultsMap) :
    ∀ acc : MembershipSet, NodupKeys acc.membersByID →
      NodupKeys (R.foldl intersectStep acc).membersByID := by
  induction R with
  | nil => intro acc h; exact h
  | cons e R2 ih =>
    intro acc h
    rw [List.foldl_cons]
    exact ih _ (nodupKeys_intersectStep acc e h)

theorem nodupKeys_intersectWith (ms : MembershipSet) (R : CheckResultsMap)
    (h : NodupKeys ms.membersByID) : NodupKeys (IntersectWith ms R).membersByID :=
  nodupKeys_foldl_intersectStep R
    { membersByID := ms.membersByID.filter fun e => (mapGet R e.1).isSome
      hasDeterminedMember := false }
    (nodupKeys_filter _ _ h)

/-! ### Subtract characterization -/

theorem subtractStep_eq (rm : CheckResultsMap) (acc : MembershipSet)
    (e : String × Option CaveatExpr) :
    subtractStep rm acc e = Except.ok (subtractStepT rm acc e) := by
  obtain ⟨k, v⟩ := e
  unfold subtractStep subtractStepT
  rcases h : mapGet rm (k, v).1 with _ | d
  · rcases v with _ | c <;> rfl
  · obtain ⟨dm, dexpr⟩ := d
    rcases dexpr with _ | r
    · rfl
    · rcases v with _ | c <;> rfl

theorem foldlM_subtractStep (rm : CheckResultsMap) :
    ∀ (l : List (String × Option CaveatExpr)) (acc : MembershipSet),
      List.foldlM (subtractStep rm) acc l =
        Except.ok (List.foldl (subtractStepT rm) acc l) := by
  intro l
  induction l with
  | nil => intro acc; rfl
  | cons e rest ih =>
    intro acc
    rw [List.foldlM_cons, subtractStep_eq]
    show List.foldlM (subtractStep rm) (subtractStepT rm acc e) rest =
      Except.ok (List.foldl (subtractStepT rm) (subtractStepT rm acc e) rest)
    exact ih _

theorem Subtract_eq (ms : MembershipSet) (rm : CheckResultsMap) :
    Subtract ms rm =
      Except.ok (ms.membersByID.foldl (subtractStepT rm)
        { ms with hasDeterminedMember := false }) :=
  foldlM_subtractStep rm ms.membersByID { ms with hasDeterminedMember := false }

theorem subtractStepT_get_ne (rm : CheckResultsMap) (acc : MembershipSet)
    (e : String × Option CaveatExpr) (id2 : String) (h : id2 ≠ e.1) :
    mapGet (subtractStepT rm acc e).membersByID id2 = mapGet acc.membersByID id2 := by
  unfold subtractStepT
  rcases hget : mapGet rm e.1 with _ | d
  · by_cases h2 : e.2.isNone <;> simp [h2]
  · rcases h3 : d.expression with _ | r
    · simp [h3, mapGet_mapDelete_ne _ _ _ h]
    · simp [h3, mapGet_mapSet_ne _ _ _ _ h]

theorem subtractStepT_get_self (rm : CheckResultsMap) (acc : MembershipSet)
    (e : String × Option CaveatExpr) :
    mapGet (subtractStepT rm acc e).membersByID e.1 =
      match mapGet rm e.1 with
      | some d =>
        match d.expression with
        | none => none
        | some r => some (some (caveatSubT e.2 r))
      | none => mapGet acc.membersByID e.1 := by
  unfold subtractStepT
  rcases hget : mapGet rm e.1 with _ | d
  · by_cases h2 : e.2.isNone <;> simp [h2]
  · rcases h3 : d.expression with _ | r
    · simp [h3, mapGet_mapDelete_self]
    · simp [h3, mapGet_mapSet_self]

theorem subtractStepT_hasDet (rm : CheckResultsMap) (acc : MembershipSet)
    (e : String × Option CaveatExpr) :
    (subtractStepT rm acc e).hasDeterminedMember =
      (acc.hasDeterminedMember || (e.2.isNone && (mapGet rm e.1).isNone)) := by
  unfold subtractStepT
  rcases hget : mapGet rm e.1 with _ | d
  · by_cases h2 : e.2.isNone <;> simp [h2]
  · rcases h3 : d.expression with _ | r <;> simp [h3]

theorem nodupKeys_subtractStepT (rm : CheckResultsMap) (acc : MembershipSet)
    (e : String × Option CaveatExpr) (h : NodupKeys acc.membersByID) :
    NodupKeys (subtractStepT rm acc e).membersByID := by
  unfold subtractStepT
  rcases hget : mapGet rm e.1 with _ | d
  · by_cases h2 : e.2.isNone <;> simp [h2, h]
  · rcases h3 : d.expression with _ | r
    · simpa [h3] using nodupKeys_mapDelete _ _ h
    · simpa [h3] using nodupKeys_mapSet _ _ _ h

theorem subtractFold_spec (rm : CheckResultsMap) :
    ∀ (l : List (String × Option CaveatExpr)) (acc : MembershipSet), NodupKeys l →
      (∀ id, id ∉ l.map Prod.fst →
        mapGet (l.foldl (subtractStepT rm) acc).membersByID id = mapGet acc.membersByID id) ∧
      (∀ id ee, (id, ee) ∈ l →
        mapGet (l.foldl (subtractStepT rm) acc).membersByID id =
          match mapGet rm id with
          | some d =>
            match d.expression with
            | none => none
            | some r => some (some (caveatSubT ee r))
          | none => mapGet acc.membersByID id) ∧
      (l.foldl (subtractStepT rm) acc).hasDeterminedMember =
        (acc.hasDeterminedMember || l.any (fun e => e.2.isNone && (mapGet rm e.1).isNone)) := by
  intro l
  induction l with
  | nil =>
    intro acc _
    refine ⟨fun id _ => rfl, fun id ee h => absurd h (List.not_mem_nil _), by simp⟩
  | cons e rest ih =>
    intro acc hnd
    obtain ⟨hfst, hnd2⟩ := (nodupKeys_cons_iff e rest).mp hnd
    obtain ⟨ihout, ihin, ihdet⟩ := ih (subtractStepT rm acc e) hnd2
    refine ⟨?_, ?_, ?_⟩
    · intro id hid
      have hid1 : id ≠ e.1 := by
        intro hh
        exact hid (by rw [hh]; simp)
      have hid2 : id ∉ rest.map Prod.fst := by
        intro hh
        exact hid (by simp [hh])
      rw [List.foldl_cons, ihout id hid2, subtractStepT_get_ne rm acc e id hid1]
    · intro id ee hmem
      rcases List.mem_cons.mp hmem with h1 | h1
      · have hid : id = e.1 := congrArg Prod.fst h1
        have hee : ee = e.2 := congrArg Prod.snd h1
        have hout : id ∉ rest.map Prod.fst := by rw [hid]; exact hfst
        rw [List.foldl_cons, ihout id hout, hid, hee, subtractStepT_get_self]
      · have hidk : id ∈ rest.map Prod.fst := List.mem_map_of_mem Prod.fst h1
        have hid1 : id ≠ e.1 := fun hh => hfst (hh ▸ hidk)
        rw [List.foldl_cons, ihin id ee h1]
        rcases hrm : mapGet rm id with _ | d
        · exact subtractStepT_get_ne rm acc e id hid1
        · rfl
    · rw [List.foldl_cons, ihdet, subtractStepT_hasDet, Bool.or_assoc, List.any_cons]

theorem Subtract_get (ms ms2 : MembershipSet) (rm : CheckResultsMap)
    (hL : NodupKeys ms.membersByID) (h : Subtract ms rm = Except.ok ms2) (id : String) :
    mapGet ms2.membersByID id =
      match mapGet ms.membersByID id with
      | none => none
      | some ee =>
        match mapGet rm id with
        | none => some ee
        | some d =>
          match d.expression with
          | none => none
          | some r => some (some (caveatSubT ee r)) := by
  rw [Subtract_eq] at h
  have hms2 : ms2 = ms.membersByID.foldl (subtractStepT rm)
      { ms with hasDeterminedMember := false } := (Except.ok.inj h).symm
  subst hms2
  obtain ⟨hout, hin, _⟩ := subtractFold_spec rm ms.membersByID
    { ms with hasDeterminedMember := false } hL
  rcases hget : mapGet ms.membersByID id with _ | ee
  · have hid : id ∉ ms.membersByID.map Prod.fst := (mapGet_eq_none_iff _ _).mp hget
    rw [hout id hid]
    exact hget
  · have hmem : (id, ee) ∈ ms.membersByID := mem_of_mapGet_eq_some _ _ _ hget
    rw [hin id ee hmem]
    rcases hrm : mapGet rm id with _ | d
    · exact hget
    · rfl

theorem foldl_subtractStepT_hasDet (rm : CheckResultsMap) :
    ∀ (l : List (String × Option CaveatExpr)) (acc : MembershipSet),
      (l.foldl (subtractStepT rm) acc).hasDeterminedMember =
        (acc.hasDeterminedMember ||
          l.any (fun e => e.2.isNone && (mapGet rm e.1).isNone)) := by
  intro l
  induction l with
  | nil => intro acc; simp
  | cons e rest ih =>
    intro acc
    rw [List.foldl_cons, ih, subtractStepT_hasDet, Bool.or_assoc, List.any_cons]

theorem Subtract_hasDet (ms ms2 : MembershipSet) (rm : CheckResultsMap)
    (h : Subtract ms rm = Except.ok ms2) :
    ms2.hasDeterminedMember =
      ms.membersByID.any (fun e => e.2.isNone && (mapGet rm e.1).isNone) := by
  rw [Subtract_eq] at h
  have hms2 : ms2 = ms.membersByID.foldl (subtractStepT rm)
      { ms with hasDeterminedMember := false } := (Except.ok.inj h).symm
  subst hms2
  rw [foldl_subtractStepT_hasDet]
  simp

theorem nodupKeys_foldl_subtractStepT (rm : CheckResultsMap) :
    ∀ (l : List (String × Option CaveatExpr)) (acc : MembershipSet),
      NodupKeys acc.membersByID →
      NodupKeys (l.foldl (subtractStepT rm) acc).membersByID := by
  intro l
  induction l with
  | nil => intro acc h; exact h
  | cons e rest ih =>
    intro acc h
    rw [List.foldl_cons]
    exact ih _ (nodupKeys_subtractStepT rm acc e h)

theorem nodupKeys_subtract (ms ms2 : MembershipSet) (rm : CheckResultsMap)
    (hL : NodupKeys ms.membersByID) (h : Subtract ms rm = Except.ok ms2) :
    NodupKeys ms2.membersByID := by
  rw [Subtract_eq] at h
  have hms2 : ms2 = ms.membersByID.foldl (subtractStepT rm)
      { ms with hasDeterminedMember := false } := (Except.ok.inj h).symm
  subst hms2
  exact nodupKeys_foldl_subtractStepT rm ms.membersByID _ hL

/-! ### Invariant preservation -/

theorem inv_intersectWith (ms : MembershipSet) (R : CheckResultsMap)
    (h : Inv ms) (hR : NodupKeys R) : Inv (IntersectWith ms R) := by
  obtain ⟨hnd, _⟩ := h
  refine ⟨nodupKeys_intersectWith ms R hnd, ?_⟩
  rw [IntersectWith_hasDet ms R hR]
  constructor
  · intro h1
    obtain ⟨x, hxmem, hx⟩ := List.any_eq_true.mp h1
    rw [Bool.and_eq_true] at hx
    have hms : mapGet ms.membersByID x.1 = some none :=
      (isDeterminedBinding_eq_true _).mp hx.1
    have hxe : x.2.expression = none := Option.isNone_iff_eq_none.mp hx.2
    have hRx : mapGet R x.1 = some x.2 := by
      have : (x.1, x.2) ∈ R := by simpa using hxmem
      exact mapGet_eq_some_of_mem R x.1 x.2 hR this
    refine ⟨x.1, ?_⟩
    rw [IntersectWith_get ms R hR x.1, hms, hRx]
    show some (caveatAnd none x.2.expression) = some none
    rw [hxe]
    rfl
  · rintro ⟨id, h1⟩
    rw [IntersectWith_get ms R hR id] at h1
    rcases hms : mapGet ms.membersByID id with _ | ex
    · rw [hms] at h1
      exact Option.noConfusion h1
    · rcases hRid : mapGet R id with _ | d
      · rw [hms, hRid] at h1
        exact Option.noConfusion h1
      · rw [hms, hRid] at h1
        have h1b : some (caveatAnd ex d.expression) = some none := h1
        have h2 : caveatAnd ex d.expression = none := Option.some.inj h1b
        obtain ⟨hex, hde⟩ := (caveatAnd_eq_none_iff _ _).mp h2
        subst hex
        refine List.any_eq_true.mpr ⟨(id, d), ?_, ?_⟩
        · exact mem_of_mapGet_eq_some R id d hRid
        · rw [Bool.and_eq_true]
          constructor
          · exact (isDeterminedBinding_eq_true _).mpr hms
          · rw [hde]
            rfl

theorem inv_subtract (ms ms2 : MembershipSet) (rm : CheckResultsMap)
    (h : Inv ms) (hok : Subtract ms rm = Except.ok ms2) : Inv ms2 := by
  obtain ⟨hnd, _⟩ := h
  refine ⟨nodupKeys_subtract ms ms2 rm hnd hok, ?_⟩
  rw [Subtract_hasDet ms ms2 rm hok]
  constructor
  · intro h1
    obtain ⟨x, hxmem, hx⟩ := List.any_eq_true.mp h1
    rw [Bool.and_eq_true] at hx
    have hx2 : x.2 = none := Option.isNone_iff_eq_none.mp hx.1
    have hxrm : mapGet rm x.1 = none := Option.isNone_iff_eq_none.mp hx.2
    have hms : mapGet ms.membersByID x.1 = some none := by
      have : (x.1, x.2) ∈ ms.membersByID := by simpa using hxmem
      rw [hx2] at this
      exact mapGet_eq_some_of_mem _ x.1 none hnd this
    refine ⟨x.1, ?_⟩
    rw [Subtract_get ms ms2 rm hnd hok x.1, hms, hxrm]
  · rintro ⟨id, h1⟩
    rw [Subtract_get ms ms2 rm hnd hok id] at h1
    rcases hms : mapGet ms.membersByID id with _ | ee
    · rw [hms] at h1
      exact Option.noConfusion h1
    · rw [hms] at h1
      rcases hrm : mapGet rm id with _ | d
      · rw [hrm] at h1
        have h1b : some ee = some none := h1
        have hee : ee = none := Option.some.inj h1b
        subst hee
        refine List.any_eq_true.mpr ⟨(id, none), mem_of_mapGet_eq_some _ id none hms, ?_⟩
        rw [Bool.and_eq_true]
        exact ⟨rfl, by rw [hrm]; rfl⟩
      · rw [hrm] at h1
        have h1b : (match d.expression with
            | none => none
            | some r => some (some (caveatSubT ee r))) = some none := h1
        rcases hde : d.expression with _ | r
        · rw [hde] at h1b
          exact Option.noConfusion h1b
        · rw [hde] at h1b
          exact Option.noConfusion (Option.some.inj h1b)

theorem inv_empty : Inv NewMembershipSet := by
  constructor
  · simp [NewMembershipSet, NodupKeys]
  · simp only [NewMembershipSet]
    constructor
    · intro h1
      exact absurd h1 (by simp)
    · rintro ⟨id, h1⟩
      exact Option.noConfusion h1

/-! ### Round-trip lemmas -/

theorem mapGet_append_none {α : Type} (l1 l2 : List (String × α)) (k : String)
    (h1 : mapGet l1 k = none) (h2 : mapGet l2 k = none) :
    mapGet (l1 ++ l2) k = none := by
  induction l1 with
  | nil => simpa using h2
  | cons e rest ih =>
    by_cases he : e.1 = k
    · simp [mapGet, he] at h1
    · simp [mapGet, he] at h1 ⊢
      exact ih h1

theorem boolEq_of_iff {a b : Bool} (h : a = true ↔ b = true) : a = b := by
  cases a <;> cases b <;> simp_all

theorem unionWith_asCheckResultsMap (acc ms : MembershipSet) :
    UnionWith acc (AsCheckResultsMap ms) =
      ms.membersByID.foldl (fun a e => addMember a e.1 e.2) acc := by
  unfold UnionWith AsCheckResultsMap
  rw [List.foldl_map]

theorem addMember_fresh (acc : MembershipSet) (id : String) (ce : Option CaveatExpr)
    (h : mapGet acc.membersByID id = none) :
    addMember acc id ce =
      { membersByID := acc.membersByID ++ [(id, ce)]
        hasDeterminedMember := acc.hasDeterminedMember || ce.isNone } := by
  unfold addMember
  rw [h, mapSet_fresh _ _ _ h]

theorem addFresh_foldl :
    ∀ (l : List (String × Option CaveatExpr)) (acc : MembershipSet), NodupKeys l →
      (∀ p ∈ l, mapGet acc.membersByID p.1 = none) →
      l.foldl (fun a e => addMember a e.1 e.2) acc =
        { membersByID := acc.membersByID ++ l
          hasDeterminedMember := acc.hasDeterminedMember || l.any (fun e => e.2.isNone) } := by
  intro l
  induction l with
  | nil =>
    intro acc _ _
    simp
  | cons e rest ih =>
    intro acc hnd hfresh
    obtain ⟨hfst, hnd2⟩ := (nodupKeys_cons_iff e rest).mp hnd
    have hfe : mapGet acc.membersByID e.1 = none := hfresh e (List.mem_cons_self e rest)
    have hfresh2 : ∀ p ∈ rest,
        mapGet (acc.membersByID ++ [(e.1, e.2)]) p.1 = none := by
      intro p hp
      have hpk : p.1 ∈ rest.map Prod.fst := List.mem_map_of_mem Prod.fst hp
      have hpe : e.1 ≠ p.1 := fun hh => hfst (hh ▸ hpk)
      refine mapGet_append_none _ _ _ (hfresh p (List.mem_cons_of_mem e hp)) ?_
      simp [mapGet, hpe]
    have hstep : List.foldl (fun a e => addMember a e.1 e.2) acc (e :: rest) =
        List.foldl (fun a e => addMember a e.1 e.2)
          { membersByID := acc.membersByID ++ [(e.1, e.2)]
            hasDeterminedMember := acc.hasDeterminedMember || e.2.isNone } rest := by
      rw [List.foldl_cons]
      show List.foldl _ (addMember acc e.1 e.2) rest = _
      rw [addMember_fresh acc e.1 e.2 hfe]
    rw [hstep, ih _ hnd2 hfresh2]
    simp [List.append_assoc, Bool.or_assoc]

theorem listAny_isNone_iff (l : List (String × Option CaveatExpr)) (hnd : NodupKeys l) :
    l.any (fun e => e.2.isNone) = true ↔ ∃ id, mapGet l id = some none := by
  constructor
  · intro h
    obtain ⟨x, hx, hxe⟩ := List.any_eq_true.mp h
    have hx2 : x.2 = none := Option.isNone_iff_eq_none.mp hxe
    refine ⟨x.1, ?_⟩
    have hmem : (x.1, x.2) ∈ l := by simpa using hx
    rw [hx2] at hmem
    exact mapGet_eq_some_of_mem _ x.1 none hnd hmem
  · rintro ⟨id, h⟩
    exact List.any_eq_true.mpr ⟨(id, none), mem_of_mapGet_eq_some _ id none h, rfl⟩

theorem inv_reachable (ms : MembershipSet) (h : Reachable ms) : Inv ms := by
  induction h with
  | empty => exact inv_empty
  | addDirect ms2 id c _ ih => exact inv_addMember ms2 id (wrapCaveat c) ih
  | addViaRelationship ms2 id rce parent _ ih =>
    exact inv_addMember ms2 id (caveatAnd (wrapCaveat parent.caveat) rce) ih
  | unionWith ms2 rm _ ih => exact inv_unionWith ms2 rm ih
  | intersectWith ms2 rm _ hR ih => exact inv_intersectWith ms2 rm ih hR
  | subtract ms2 ms3 rm _ hok ih => exact inv_subtract ms2 ms3 rm ih hok

/-! ### Claim theorems -/

/-- C1: for every membership set and every insertion of a resource id with
an optional caveat expression, through add-direct, add-via-relationship or
union-with, the merge rule holds: a fresh id stores the incoming expression
(possibly absent); an id present with an absent expression ignores the
incoming value; an id present with expression e and an absent incoming
value stores absent and sets has-determined; otherwise or(e, incoming) is
stored. -/
theorem claim1_merge_rule (ms : MembershipSet) (id : String) (ce : Option CaveatExpr) :
    (∀ cav, AddDirectMember ms id cav = addMember ms id (wrapCaveat cav)) ∧
    (∀ rce parent, AddMemberViaRelationship ms id rce parent =
      addMember ms id (caveatAnd (wrapCaveat parent.caveat) rce)) ∧
    (∀ rm : CheckResultsMap, UnionWith ms rm =
      rm.foldl (fun acc e => addMember acc e.1 e.2.expression) ms) ∧
    (mapGet ms.membersByID id = none →
      mapGet (addMember ms id ce).membersByID id = some ce ∧
      (addMember ms id ce).hasDeterminedMember =
        (ms.hasDeterminedMember || ce.isNone)) ∧
    (mapGet ms.membersByID id = some none → addMember ms id ce = ms) ∧
    (∀ e, mapGet ms.membersByID id = some (some e) → ce = none →
      mapGet (addMember ms id ce).membersByID id = some none ∧
      (addMember ms id ce).hasDeterminedMember = true) ∧
    (∀ e c, mapGet ms.membersByID id = some (some e) → ce = some c →
      mapGet (addMember ms id ce).membersByID id =
        some (caveatOr (some e) (some c))) := by
  refine ⟨fun cav => rfl, fun rce parent => rfl, fun rm => rfl, ?_, ?_, ?_, ?_⟩
  · intro h
    constructor
    · rw [addMember_get_self, h]
    · rw [addMember_hasDet, h]
  · intro h
    simp [addMember, h]
  · intro e he hce
    subst hce
    constructor
    · rw [addMember_get_self, he]
    · rw [addMember_hasDet, he]
  · intro e c he hce
    subst hce
    rw [addMember_get_self, he]

/-- C1 witness: inserting a determined member into the empty set stores an
absent expression for it and raises the determined flag. -/
theorem claim1_merge_rule_witness :
    mapGet (addMember NewMembershipSet "r1" none).membersByID "r1" = some none ∧
    (addMember NewMembershipSet "r1" none).hasDeterminedMember =
      (NewMembershipSet.hasDeterminedMember || (none : Option CaveatExpr).isNone) :=
  (claim1_merge_rule NewMembershipSet "r1" none).2.2.2.1 rfl

/-- C4 counterexample: `caveatSub` with an absent subtrahend does return a
value when the minuend is also absent — the nil-minuend early return runs
before the nil-subtrahend panic — so subtracting an unconditional result
does not always abort. -/
theorem claim4_counterexample :
    caveatSub none none = Except.ok (invert none) ∧
    caveatSub none none ≠ Except.error "subtraction caveat expression is nil" := by
  constructor
  · rfl
  · intro h
    exact Except.noConfusion h

/-- C4 amended: `sub(a, b)` with an absent `b` panics exactly when `a` is
present; when `a` is also absent it instead returns `not(b)` with a nil
child. -/
theorem claim4_amended (a b : Option CaveatExpr) :
    (∃ msg, caveatSub a b = Except.error msg) ↔ (a ≠ none ∧ b = none) := by
  cases a <;> cases b <;> simp [caveatSub]

/-- C5: for every membership set reachable from the empty set by the public
operations, has-determined-member is true exactly when some id in the
members map stores an absent caveat expression. -/
theorem claim5_hasDetermined_consistent (ms : MembershipSet) (h : Reachable ms) :
    HasDeterminedMember ms = true ↔ ∃ id, mapGet ms.membersByID id = some none :=
  (inv_reachable ms h).2

/-- C5 witness: the invariant instantiated at the reachable set obtained by
directly adding one determined member to the empty set. -/
theorem claim5_hasDetermined_consistent_witness :
    HasDeterminedMember (AddDirectMember NewMembershipSet "r1" none) = true ↔
      ∃ id, mapGet (AddDirectMember NewMembershipSet "r1" none).membersByID id =
        some none :=
  claim5_hasDetermined_consistent (AddDirectMember NewMembershipSet "r1" none)
    (Reachable.addDirect NewMembershipSet "r1" none Reachable.empty)

/-- C8: each streaming operation of the single-flight dispatcher returns
exactly what the delegate returns on the same request and stream, with the
request passed through unmodified. -/
theorem claim8_streaming_passthrough (d : Dispatcher)
    (req1 : DispatchReachableResourcesRequest) (s1 : ReachableResourcesStream)
    (req2 : DispatchLookupResourcesRequest) (s2 : LookupResourcesStream)
    (req3 : DispatchLookupSubjectsRequest) (s3 : LookupSubjectsStream) :
    Dispatcher.DispatchReachableResources d req1 s1 =
      d.delegate.dispatchReachableResources req1 s1 ∧
    Dispatcher.DispatchLookupResources d req2 s2 =
      d.delegate.dispatchLookupResources req2 s2 ∧
    Dispatcher.DispatchLookupSubjects d req3 s3 =
      d.delegate.dispatchLookupSubjects req3 s3 :=
  ⟨rfl, rfl, rfl⟩

/-- C10: `Subtract` is total — it always returns a membership set and the
panic inside `caveatSub` is unreachable from it, since `caveatSub` never
fails when its second argument is present and `Subtract` deletes any id
whose incoming expression is absent instead of calling `caveatSub`. -/
theorem claim10_subtract_total (ms : MembershipSet) (rm : CheckResultsMap) :
    (∃ ms2, Subtract ms rm = Except.ok ms2) ∧
    (∀ e r, ∃ v, caveatSub e (some r) = Except.ok v) :=
  ⟨⟨_, Subtract_eq ms rm⟩, fun e r => ⟨caveatSubT e r, caveatSub_some_eq e r⟩⟩

/-- C2: after intersect-with(R), every id of L absent from R is removed and
no id absent from L is added; a surviving id whose two values are both
absent stores absent and raises has-determined; every other surviving id
stores and(e, r) with absent as top; has-determined is true exactly when a
surviving id had both values absent. -/
theorem claim2_intersect_rule (ms : MembershipSet) (R : CheckResultsMap)
    (hR : NodupKeys R) :
    (∀ id, mapGet ms.membersByID id = none →
      mapGet (IntersectWith ms R).membersByID id = none) ∧
    (∀ id e, mapGet ms.membersByID id = some e → mapGet R id = none →
      mapGet (IntersectWith ms R).membersByID id = none) ∧
    (∀ id d, mapGet ms.membersByID id = some none → mapGet R id = some d →
      d.expression = none →
      mapGet (IntersectWith ms R).membersByID id = some none ∧
      (IntersectWith ms R).hasDeterminedMember = true) ∧
    (∀ id e d, mapGet ms.membersByID id = some e → mapGet R id = some d →
      ¬(e = none ∧ d.expression = none) →
      mapGet (IntersectWith ms R).membersByID id = some (caveatAnd e d.expression)) ∧
    (∀ r, caveatAnd none (some r) = some r) ∧
    (∀ e2, caveatAnd (some e2) none = some e2) ∧
    ((IntersectWith ms R).hasDeterminedMember = true ↔
      ∃ id d, mapGet ms.membersByID id = some none ∧ mapGet R id = some d ∧
        d.expression = none) := by
  have hiff : (IntersectWith ms R).hasDeterminedMember = true ↔
      ∃ id d, mapGet ms.membersByID id = some none ∧ mapGet R id = some d ∧
        d.expression = none := by
    rw [IntersectWith_hasDet ms R hR]
    constructor
    · intro h1
      obtain ⟨x, hx, hx2⟩ := List.any_eq_true.mp h1
      rw [Bool.and_eq_true] at hx2
      exact ⟨x.1, x.2, (isDeterminedBinding_eq_true _).mp hx2.1,
        mapGet_eq_some_of_mem R x.1 x.2 hR (by simpa using hx),
        Option.isNone_iff_eq_none.mp hx2.2⟩
    · rintro ⟨id, d, h1, h2, h3⟩
      refine List.any_eq_true.mpr ⟨(id, d), mem_of_mapGet_eq_some R id d h2, ?_⟩
      rw [Bool.and_eq_true]
      exact ⟨(isDeterminedBinding_eq_true _).mpr h1, by rw [h3]; rfl⟩
  refine ⟨?_, ?_, ?_, ?_, fun r => rfl, fun e2 => rfl, hiff⟩
  · intro id h
    rw [IntersectWith_get ms R hR id, h]
  · intro id e h1 h2
    rw [IntersectWith_get ms R hR id, h1, h2]
  · intro id d h1 h2 h3
    constructor
    · rw [IntersectWith_get ms R hR id, h1, h2]
      show some (caveatAnd none d.expression) = some none
      rw [h3]
      rfl
    · exact hiff.mpr ⟨id, d, h1, h2, h3⟩
  · intro id e d h1 h2 _
    rw [IntersectWith_get ms R hR id, h1, h2]

/-- C2 witness: intersecting the set holding determined member r1 with a
map holding a determined result for r1 keeps r1 absent-valued and raises
the determined flag. -/
theorem claim2_intersect_rule_witness :
    mapGet (IntersectWith exampleMS1 exampleRM1).membersByID "r1" = some none ∧
    (IntersectWith exampleMS1 exampleRM1).hasDeterminedMember = true :=
  (claim2_intersect_rule exampleMS1 exampleRM1 (by decide)).2.2.1 "r1"
    { membership := Membership.member, expression := none } rfl rfl rfl

/-- C3: after subtract(R), an id of L absent from R is kept unchanged; an
id of L whose R-value expression is absent is deleted; every other id of L
is replaced by sub(e, r), which equals not(r) when e is absent; the
determined flag is recomputed and is true exactly when a kept id stores an
absent expression. -/
theorem claim3_subtract_rule (ms ms2 : MembershipSet) (rm : CheckResultsMap)
    (hL : NodupKeys ms.membersByID) (h : Subtract ms rm = Except.ok ms2) :
    (∀ id e, mapGet ms.membersByID id = some e → mapGet rm id = none →
      mapGet ms2.membersByID id = some e) ∧
    (∀ id e d, mapGet ms.membersByID id = some e → mapGet rm id = some d →
      d.expression = none → mapGet ms2.membersByID id = none) ∧
    (∀ id e d r, mapGet ms.membersByID id = some e → mapGet rm id = some d →
      d.expression = some r →
      ∃ v, caveatSub e (some r) = Except.ok v ∧
        mapGet ms2.membersByID id = some (some v)) ∧
    (∀ r, caveatSub none (some r) = Except.ok (invert (some r))) ∧
    (ms2.hasDeterminedMember = true ↔
      ∃ id, mapGet ms.membersByID id = some none ∧ mapGet rm id = none) := by
  refine ⟨?_, ?_, ?_, fun r => rfl, ?_⟩
  · intro id e h1 h2
    rw [Subtract_get ms ms2 rm hL h id, h1, h2]
  · intro id e d h1 h2 h3
    rw [Subtract_get ms ms2 rm hL h id, h1, h2]
    show (match d.expression with
      | none => none
      | some r => some (some (caveatSubT e r))) = none
    rw [h3]
  · intro id e d r h1 h2 h3
    refine ⟨caveatSubT e r, caveatSub_some_eq e r, ?_⟩
    rw [Subtract_get ms ms2 rm hL h id, h1, h2]
    show (match d.expression with
      | none => none
      | some r2 => some (some (caveatSubT e r2))) = some (some (caveatSubT e r))
    rw [h3]
  · rw [Subtract_hasDet ms ms2 rm h]
    constructor
    · intro h1
      obtain ⟨x, hx, hx2⟩ := List.any_eq_true.mp h1
      rw [Bool.and_eq_true] at hx2
      have hx3 : x.2 = none := Option.isNone_iff_eq_none.mp hx2.1
      refine ⟨x.1, ?_, Option.isNone_iff_eq_none.mp hx2.2⟩
      have hmem : (x.1, x.2) ∈ ms.membersByID := by simpa using hx
      rw [hx3] at hmem
      exact mapGet_eq_some_of_mem _ x.1 none hL hmem
    · rintro ⟨id, h1, h2⟩
      refine List.any_eq_true.mpr ⟨(id, none), mem_of_mapGet_eq_some _ id none h1, ?_⟩
      rw [Bool.and_eq_true]
      exact ⟨rfl, by rw [h2]; rfl⟩

/-- C3 witness: subtracting a caveated result for r1 from the set holding
the determined member r1 replaces r1 with sub(absent, c2), i.e. not(c2). -/
theorem claim3_subtract_rule_witness :
    ∃ v, caveatSub none (some exampleCaveat2) = Except.ok v ∧
      mapGet
        { membersByID := [("r1", some (invert (some exampleCaveat2)))]
          hasDeterminedMember := false : MembershipSet }.membersByID "r1" =
        some (some v) :=
  (claim3_subtract_rule exampleMS1
      { membersByID := [("r1", some (invert (some exampleCaveat2)))]
        hasDeterminedMember := false }
      exampleRM2 (by decide) rfl).2.2.1 "r1" none
    { membership := Membership.caveatedMember, expression := some exampleCaveat2 }
    exampleCaveat2 rfl rfl rfl

/-- C6: converting a reachable membership set with to-check-results-map and
re-ingesting the map into a fresh empty set via union-with yields an
equivalent set: the same binding for every id and the same determined
flag. -/
theorem claim6_roundtrip (S : MembershipSet) (h : Reachable S) :
    (∀ id, mapGet (UnionWith NewMembershipSet (AsCheckResultsMap S)).membersByID id =
      mapGet S.membersByID id) ∧
    HasDeterminedMember (UnionWith NewMembershipSet (AsCheckResultsMap S)) =
      HasDeterminedMember S := by
  obtain ⟨hnd, hdet⟩ := inv_reachable S h
  have heq : UnionWith NewMembershipSet (AsCheckResultsMap S) =
      { membersByID := [] ++ S.membersByID
        hasDeterminedMember := false || S.membersByID.any (fun e => e.2.isNone) } := by
    rw [unionWith_asCheckResultsMap]
    exact addFresh_foldl S.membersByID NewMembershipSet hnd (fun p _ => rfl)
  rw [heq]
  constructor
  · intro id
    simp
  · show (false || S.membersByID.any fun e => e.2.isNone) = S.hasDeterminedMember
    rw [Bool.false_or]
    exact boolEq_of_iff ((listAny_isNone_iff _ hnd).trans hdet.symm)

/-- C6 witness: the round trip instantiated at the reachable set holding
one caveated member. -/
theorem claim6_roundtrip_witness :
    (∀ id, mapGet (UnionWith NewMembershipSet
        (AsCheckResultsMap (AddDirectMember NewMembershipSet "r1"
          (some { caveatName := "c1" })))).membersByID id =
      mapGet (AddDirectMember NewMembershipSet "r1"
        (some { caveatName := "c1" })).membersByID id) ∧
    HasDeterminedMember (UnionWith NewMembershipSet
        (AsCheckResultsMap (AddDirectMember NewMembershipSet "r1"
          (some { caveatName := "c1" })))) =
      HasDeterminedMember (AddDirectMember NewMembershipSet "r1"
        (some { caveatName := "c1" })) :=
  claim6_roundtrip (AddDirectMember NewMembershipSet "r1" (some { caveatName := "c1" }))
    (Reachable.addDirect NewMembershipSet "r1" (some { caveatName := "c1" })
      Reachable.empty)

/-- C7: on every error outcome of check or expand — key-handler failure,
which yields an internal-class error without consulting the in-flight
group, or a delegate error surfaced through the group — the response
alongside the error is non-nil and carries metadata with dispatch count
1. -/
theorem claim7_error_paths (d : Dispatcher) (reqC : DispatchCheckRequest)
    (reqE : DispatchExpandRequest) (gC : GroupDo DispatchCheckResponse)
    (gE : GroupDo DispatchExpandResponse) :
    (∀ err, (Dispatcher.DispatchCheck d reqC gC).2 = some err →
      ∃ resp, (Dispatcher.DispatchCheck d reqC gC).1 = some resp ∧
        resp.metadata = some { dispatchCount := 1 }) ∧
    (∀ e0, d.keyHandler.checkDispatchKey reqC = Except.error e0 →
      Dispatcher.DispatchCheck d reqC gC =
        (some { metadata := some { dispatchCount := 1 }, resultsByResourceID := [] },
          some (GoError.statusError StatusCode.internal
            "unexpected DispatchCheck error")) ∧
      ∀ gC2, Dispatcher.DispatchCheck d reqC gC2 = Dispatcher.DispatchCheck d reqC gC) ∧
    (∀ err, (Dispatcher.DispatchExpand d reqE gE).2 = some err →
      ∃ resp, (Dispatcher.DispatchExpand d reqE gE).1 = some resp ∧
        resp.metadata = some { dispatchCount := 1 }) ∧
    (∀ e0, d.keyHandler.expandDispatchKey reqE = Except.error e0 →
      Dispatcher.DispatchExpand d reqE gE =
        (some { metadata := some { dispatchCount := 1 }, treeNode := 0 },
          some (GoError.statusError StatusCode.internal
            "unexpected DispatchExpand error")) ∧
      ∀ gE2, Dispatcher.DispatchExpand d reqE gE2 = Dispatcher.DispatchExpand d reqE gE) := by
  refine ⟨?_, ?_, ?_, ?_⟩
  · intro err herr
    rcases hk : d.keyHandler.checkDispatchKey reqC with e0 | key
    · exact ⟨{ metadata := some { dispatchCount := 1 }, resultsByResourceID := [] },
        by simp [Dispatcher.DispatchCheck, hk], rfl⟩
    · rcases hdo : (gC (hexEncodeToString key)
          (fun _ => d.delegate.dispatchCheck reqC)).1 with e1 | v
      · exact ⟨{ metadata := some { dispatchCount := 1 }, resultsByResourceID := [] },
          by simp [Dispatcher.DispatchCheck, hk, hdo], rfl⟩
      · exfalso
        have hnone : (Dispatcher.DispatchCheck d reqC gC).2 = none := by
          simp [Dispatcher.DispatchCheck, hk, hdo]
        rw [hnone] at herr
        exact Option.noConfusion herr
  · intro e0 hk
    constructor
    · simp [Dispatcher.DispatchCheck, hk]
    · intro gC2
      simp [Dispatcher.DispatchCheck, hk]
  · intro err herr
    rcases hk : d.keyHandler.expandDispatchKey reqE with e0 | key
    · exact ⟨{ metadata := some { dispatchCount := 1 }, treeNode := 0 },
        by simp [Dispatcher.DispatchExpand, hk], rfl⟩
    · rcases hdo : (gE (hexEncodeToString key)
          (fun _ => d.delegate.dispatchExpand reqE)).1 with e1 | v
      · exact ⟨{ metadata := some { dispatchCount := 1 }, treeNode := 0 },
          by simp [Dispatcher.DispatchExpand, hk, hdo], rfl⟩
      · exfalso
        have hnone : (Dispatcher.DispatchExpand d reqE gE).2 = none := by
          simp [Dispatcher.DispatchExpand, hk, hdo]
        rw [hnone] at herr
        exact Option.noConfusion herr
  · intro e0 hk
    constructor
    · simp [Dispatcher.DispatchExpand, hk]
    · intro gE2
      simp [Dispatcher.DispatchExpand, hk]

/-- C7 witness: with a failing key handler, the check path still returns a
response whose metadata carries dispatch count 1 alongside the error. -/
theorem claim7_error_paths_witness :
    ∃ resp, (Dispatcher.DispatchCheck exampleDispatcher { payload := 0 }
        exampleGroupDoCheck).1 = some resp ∧
      resp.metadata = some { dispatchCount := 1 } :=
  (claim7_error_paths exampleDispatcher { payload := 0 } { payload := 0 }
      exampleGroupDoCheck exampleGroupDoExpand).1
    (GoError.statusError StatusCode.internal "unexpected DispatchCheck error") rfl

end SpiceDB
